import Mathlib

set_option linter.unusedSectionVars false
set_option linter.unusedVariables false

/-!
# Verification of the Movie-Recommendation backend

A shallow embedding of `backend/recommender.py`, `backend/main.py` and
`backend/database.py`, together with proofs that settle the claims of the
specification against it.

Conventions of the embedding:
* Python floats (similarity scores, popularity, vote averages) are modelled
  as the elements of an arbitrary linear ordered commutative ring `R`: the
  claims under study are order/structure claims, settled here for every such
  ring at once — in particular for `ℚ`, which contains every IEEE double
  exactly.  Executable witnesses instantiate `R := ℤ`.
* Python strings are Lean `String`s; the string operations used by the code
  (`str.lower`, `str.strip`, equality, substring/regex search) are given
  explicit executable definitions on `List Char` below.
* The catalogue dataframe `df` and the TF-IDF matrix are the fields of a
  `Model` value; `load_model` has already run, so (as lines 50-55 of
  `recommender.py` ensure) no field holds a NaN: missing text became `""`
  and missing numbers became `0.0`.
-/

/-! ## Python string primitives -/

/-- Python's `str.lower` restricted to ASCII (Lean's `Char.toLower`), mapped
over the characters of the string. -/
def pyLowerL (l : List Char) : List Char := l.map Char.toLower

/-- The characters Python's `str.strip()` removes by default. -/
def pyIsSpace (c : Char) : Bool :=
  c = ' ' || c = '\t' || c = '\n' || c = '\r' || c = '\x0b' || c = '\x0c'

/-- Python's `str.strip()`: drop leading and trailing whitespace. -/
def pyStripL (l : List Char) : List Char :=
  ((l.dropWhile pyIsSpace).reverse.dropWhile pyIsSpace).reverse

/-- `query.lower().strip()` as performed by `get_recommendations` and
`search_movies` (`recommender.py` lines 106 and 143). -/
def normQuery (q : String) : List Char := pyStripL (pyLowerL q.data)

/-- Boolean "`pat` occurs at the start of `s`" on character lists. -/
def isPrefixL : List Char → List Char → Bool
  | [], _ => true
  | _ :: _, [] => false
  | a :: as, b :: bs => a = b && isPrefixL as bs

/-- Boolean literal-substring test: `pat` occurs contiguously inside `s`. -/
def containsSub (pat : List Char) : List Char → Bool
  | [] => isPrefixL pat []
  | c :: rest => isPrefixL pat (c :: rest) || containsSub pat rest

/-! ## The regular-expression fragment used by `pandas.Series.str.contains`

`indices.index.str.lower().str.contains(title_lower, na=False)`
(`recommender.py` line 111) and
`df["title"].str.lower().str.contains(query_lower, na=False)` (line 144)
treat the query as a *regular expression* (`regex=True` is the pandas
default, matching via `re.search`), not as a literal substring.  We embed
the fragment of Python regular expressions in which every character is
either the wildcard `.` or an ordinary literal character; patterns that use
any other metacharacter are outside the fragment, and every theorem below
that touches the fallback matcher carries a `queryOK` hypothesis keeping the
query inside the fragment (outside it the definition falls back to the
literal-substring test and is not claimed to be faithful). -/

/-- One atom of the embedded regex fragment. -/
inductive RAtom where
  | dot : RAtom
  | lit : Char → RAtom
deriving DecidableEq, Repr

/-- Python `re` metacharacters other than `.`: a pattern containing one of
these is outside the embedded fragment. -/
def reMeta (c : Char) : Bool :=
  c = '^' || c = '$' || c = '*' || c = '+' || c = '?' || c = '\\' ||
  c = '|' || c = '(' || c = ')' || c = '[' || c = ']' ||
  c = Char.ofNat 123 || c = Char.ofNat 125

/-- The pattern is inside the embedded fragment: no metacharacter but `.`. -/
def queryOK (pat : List Char) : Bool := pat.all (fun c => !reMeta c)

/-- Parse a fragment pattern: `.` is the wildcard, anything else a literal. -/
def parsePat (pat : List Char) : List RAtom :=
  pat.map (fun c => if c = '.' then RAtom.dot else RAtom.lit c)

/-- Match a sequence of atoms against a prefix of `s` (as `re.match`). -/
def matchSeq : List RAtom → List Char → Bool
  | [], _ => true
  | _ :: _, [] => false
  | RAtom.dot :: as, _ :: bs => matchSeq as bs
  | RAtom.lit c :: as, b :: bs => c = b && matchSeq as bs

/-- Match a sequence of atoms anywhere inside `s` (as `re.search`). -/
def searchAtoms (ats : List RAtom) : List Char → Bool
  | [] => matchSeq ats []
  | c :: rest => matchSeq ats (c :: rest) || searchAtoms ats rest

/-- `pandas.Series.str.contains(pat, na=False)` on one string, embedded on
the fragment described above: regex search for fragment patterns, literal
containment outside the fragment (where the model is not faithful and no
theorem relies on it). -/
def pandasContains (pat s : List Char) : Bool :=
  if queryOK pat then searchAtoms (parsePat pat) s else containsSub pat s


/-! ## The catalogue data model -/

variable {R : Type} [LinearOrderedCommRing R]

/-- One row of the catalogue dataframe `df`, after `load_model` has replaced
every NaN by `""` / `0.0` (`recommender.py` lines 50-55).  The tag text only
feeds the (precomputed) TF-IDF matrix, so it is not carried here. -/
structure Movie (R : Type) where
  title : String
  overview : String
  genres : String
  tagline : String
  vote_average : R
  popularity : R
deriving DecidableEq, Repr

instance : Inhabited (Movie R) := ⟨⟨"", "", "", "", 0, 0⟩⟩

/-- The process-wide state built by `load_model`: the catalogue rows (`df`)
and the TF-IDF matrix (`tfidf_matrix`), one sparse vector per row, here a
dense list of rationals per row. -/
structure Model (R : Type) where
  rows : List (Movie R)
  matrix : List (List R)
deriving Repr

/-- The lowercased title of a row, as `indices.index.str.lower()` and
`df["title"].str.lower()` compute it. -/
def titleLower (r : Movie R) : List Char := pyLowerL r.title.data

/-- `list(enumerate(l))`, pairing each element with its position. -/
def enumFrom {α : Type} : ℕ → List α → List (ℕ × α)
  | _, [] => []
  | i, a :: as => (i, a) :: enumFrom (i + 1) as

/-- Modelled from the spec: the `indices.pkl` artifact (the pandas Series
mapping titles to row positions) is not under `src/`; per spec §3 and §6 it
has one entry per catalogue row, holding that row's title and its position,
in catalogue order. -/
def indicesOf (m : Model R) : List (String × ℕ) :=
  (enumFrom 0 m.rows).map (fun p => (p.2.title, p.1))

/-- The title-resolution step of `get_recommendations`
(`recommender.py` lines 105-115): normalise the query, keep the index
entries whose lowercased title equals it; if none, keep the entries whose
lowercased title matches it via `str.contains`; `matches.iloc[0]` then
yields the first surviving entry's row position, and an empty fallback
yields NOT_FOUND (`None`). -/
def resolve_title (m : Model R) (q : String) : Option ℕ :=
  match (indicesOf m).filter (fun p => pyLowerL p.1.data == normQuery q) with
  | p :: _ => some p.2
  | [] =>
    match (indicesOf m).filter
        (fun p => pandasContains (normQuery q) (pyLowerL p.1.data)) with
    | p :: _ => some p.2
    | [] => none

/-! ## Similarity ranking -/

/-- Dot product of two dense vectors (`linear_kernel` on one row pair). -/
def dotQ : List R → List R → R
  | a :: as, b :: bs => a * b + dotQ as bs
  | _, _ => 0

/-- Cosine-similarity row: `linear_kernel(tfidf_matrix[idx:idx+1],
tfidf_matrix).flatten()`, the dot product of row `idx` against every row. -/
def cosineRow (m : Model R) (idx : ℕ) : List R :=
  m.matrix.map (dotQ (m.matrix.getD idx []))

/-- Similarity between rows `i` and `j` of the matrix. -/
def simAt (m : Model R) (i j : ℕ) : R :=
  dotQ (m.matrix.getD i []) (m.matrix.getD j [])

/-- Insert a scored index into a list, after every entry with a strictly
larger score: the insertion step of a stable descending sort. -/
def insertDesc (p : ℕ × R) : List (ℕ × R) → List (ℕ × R)
  | [] => [p]
  | q :: qs => if q.2 > p.2 then q :: insertDesc p qs else p :: q :: qs

/-- `sorted(sim_scores, key=lambda x: x[1], reverse=True)`: Python's sort is
stable and `reverse=True` preserves the original order of entries with equal
scores, which this insertion sort reproduces. -/
def sortDesc : List (ℕ × R) → List (ℕ × R)
  | [] => []
  | p :: ps => insertDesc p (sortDesc ps)

/-- The `movie_indices` list of `get_recommendations` (`recommender.py`
lines 117-125): enumerate the cosine-similarity row, sort by score
descending, take entries `1` through `n` (`sim_scores[1:n+1]`, the comment
says "skip first (itself)"), and keep the row positions. -/
def recIndices (m : Model R) (title : String) (n : ℕ) : List ℕ :=
  match resolve_title m title with
  | none => []
  | some idx =>
    (((sortDesc (enumFrom 0 (cosineRow m idx))).drop 1).take n).map (fun p => p.1)

/-- The display record `_build_movie` constructs from a row
(`recommender.py` lines 89-100): overview truncated to 200 characters,
`poster_url` left unset. -/
structure DisplayMovie (R : Type) where
  title : String
  overview : String
  genres : String
  tagline : String
  vote_average : R
  popularity : R
  poster_url : Option String
deriving DecidableEq, Repr

/-- `_build_movie(row)`. -/
def build_movie (r : Movie R) : DisplayMovie R :=
  { title := r.title
    overview := ⟨r.overview.data.take 200⟩
    genres := r.genres
    tagline := r.tagline
    vote_average := r.vote_average
    popularity := r.popularity
    poster_url := none }

/-- `get_recommendations(title, n)` (`recommender.py` lines 103-128):
resolve the title (empty list on NOT_FOUND), rank every row by similarity,
slice out positions `1..n` of the ranking, and build a display record from
each corresponding catalogue row (`df.iloc[movie_indices]`). -/
def get_recommendations (m : Model R) (title : String) (n : ℕ) : List (DisplayMovie R) :=
  (recIndices m title n).filterMap (fun i => (m.rows.get? i).map build_movie)

/-! ## Trending -/

/-- The catalogue rows paired with their popularity, in catalogue order. -/
def popPairs (m : Model R) : List (ℕ × R) :=
  enumFrom 0 (m.rows.map (fun r => r.popularity))

/-- What `df.sort_values("popularity", ascending=False)` guarantees about
the row order it returns, and nothing more: the order is a permutation of
the row positions, non-increasing in popularity.  The call uses pandas'
default `kind='quicksort'`, which the pandas documentation states is *not*
stable, so the relative order of rows with tied popularity is
implementation-defined; the embedding therefore treats the sorted order as
an arbitrary list satisfying exactly this contract. -/
def IsPopSortOf (m : Model R) (ord : List ℕ) : Prop :=
  ord.Perm (List.range m.rows.length) ∧
  ord.Pairwise (fun i j =>
    (m.rows.getD j default).popularity ≤ (m.rows.getD i default).popularity)

/-- The catalogue rows read off along a row order `ord`. -/
def rowsOf (m : Model R) (ord : List ℕ) : List (Movie R) :=
  ord.map (fun i => m.rows.getD i default)

/-- `get_trending(page, per_page)` (`recommender.py` lines 131-138),
parametrized by the row order `ord` that `df.sort_values("popularity",
ascending=False)` produced (see `IsPopSortOf`: the library pins the order
down only up to tied popularities): slice
`[(page-1)*per_page : (page-1)*per_page + per_page]` of the sorted frame
(Python slicing clamps, so an out-of-range slice is empty) and build a
display record per surviving row. -/
def get_trending_on (m : Model R) (ord : List ℕ) (page per_page : ℕ) :
    List (DisplayMovie R) :=
  ((((ord.drop ((page - 1) * per_page)).take per_page).filterMap
    (fun i => m.rows.get? i)).map build_movie)

/-- The concatenation of trending pages `1..k` (for a fixed sort outcome):
the object the paging claim quantifies over. -/
def pagesConcat (m : Model R) (ord : List ℕ) (per_page : ℕ) :
    ℕ → List (DisplayMovie R)
  | 0 => []
  | k + 1 => pagesConcat m ord per_page k ++ get_trending_on m ord (k + 1) per_page

/-- One admissible sort outcome: the *stable* descending order (popularity
descending, ties in catalogue order).  The program does not guarantee this
particular outcome — it is used below only to show the `IsPopSortOf`
contract is satisfiable. -/
def stablePopOrder (m : Model R) : List ℕ :=
  (sortDesc (popPairs m)).map (fun p => p.1)

/-! ## Search and titles -/

/-- `search_movies(query, limit)` (`recommender.py` lines 141-147; the
route always calls it with the default `limit=20`): keep the rows whose
lowercased title matches the normalised query via `str.contains`, in
catalogue order, truncated by `head(limit)`. -/
def search_movies (m : Model R) (query : String) (limit : ℕ) : List (DisplayMovie R) :=
  (((m.rows.filter (fun r => pandasContains (normQuery query) (titleLower r))).take
    limit).map build_movie)

/-- `Series.unique()`: deduplicate keeping the first occurrence of each
value, in encounter order (`seen` accumulates the values already kept). -/
def pdUniqueAux : List String → List String → List String
  | _, [] => []
  | seen, x :: xs =>
    if x ∈ seen then pdUniqueAux seen xs else x :: pdUniqueAux (x :: seen) xs

/-- `Series.unique()` on a title column. -/
def pdUnique (l : List String) : List String := pdUniqueAux [] l

/-- `get_all_titles(limit)` (`recommender.py` lines 170-172; callers use the
default `limit=50000`): `df["title"].dropna().unique().tolist()[:limit]`.
After `load_model`, `df["title"]` holds no NaN (line 55 filled them with
`""`), so `dropna` removes nothing and is omitted. -/
def get_all_titles (m : Model R) (limit : ℕ) : List String :=
  (pdUnique (m.rows.map (fun r => r.title))).take limit

/-! ## Poster lookup -/

/-- What one HTTP attempt against the TMDB search endpoint yields for a
given title: a network/parse failure, or a response with a status code and
a `results` array whose entries each optionally carry a `poster_path`. -/
inductive TmdbOutcome where
  | netError : TmdbOutcome
  | resp : ℕ → List (Option String) → TmdbOutcome

/-- The provider, abstracted: the outcome an HTTP request for a title gets. -/
def TmdbOracle : Type := String → TmdbOutcome

/-- The process-wide `_poster_cache` dict, as an association list (first
binding wins, as the code only ever writes a key it has found absent). -/
def PosterCache : Type := List (String × String)

/-- `title in _poster_cache` / `_poster_cache[title]`. -/
def cacheLookup (c : PosterCache) (title : String) : Option String :=
  (c.find? (fun p => p.1 == title)).map (fun p => p.2)

/-- `https://image.tmdb.org/t/p/w500` prefixed to a poster path. -/
def posterUrlOf (path : String) : String := "https://image.tmdb.org/t/p/w500" ++ path

/-- Truthiness of `results[0].get("poster_path")`: present and non-empty. -/
def firstPoster : List (Option String) → Option String
  | (some p) :: _ => if p = "" then none else some p
  | _ => none

/-- `get_poster_url(title)` (`recommender.py` lines 150-167), the function
the `/api/movies/poster` route calls.  Returns the poster URL (or `""`),
the poster cache after the call, and the number of external network calls
made.  Note the code never reads or writes `_poster_cache` here: with an
API key configured it issues one HTTP request on every invocation. -/
def get_poster_url (key : String) (fetch : TmdbOracle) (c : PosterCache)
    (title : String) : String × PosterCache × ℕ :=
  if key = "" then ("", c, 0)
  else
    match fetch title with
    | TmdbOutcome.netError => ("", c, 1)
    | TmdbOutcome.resp code results =>
      if code = 200 then
        match firstPoster results with
        | some p => (posterUrlOf p, c, 1)
        | none => ("", c, 1)
      else ("", c, 1)

/-- `_fetch_poster_path(title)` (`recommender.py` lines 64-86), the cached
variant (no caller in the repository): return a cache hit immediately; with
no API key return `""` without caching; otherwise perform one HTTP request,
cache the constructed URL on success and `""` on every failure. -/
def fetch_poster_path (key : String) (fetch : TmdbOracle) (c : PosterCache)
    (title : String) : String × PosterCache × ℕ :=
  match cacheLookup c title with
  | some v => (v, c, 0)
  | none =>
    if key = "" then ("", c, 0)
    else
      match fetch title with
      | TmdbOutcome.netError => ("", (title, "") :: c, 1)
      | TmdbOutcome.resp code results =>
        if code = 200 then
          match firstPoster results with
          | some p => (posterUrlOf p, (title, posterUrlOf p) :: c, 1)
          | none => ("", (title, "") :: c, 1)
        else ("", (title, "") :: c, 1)

/-! ## Routes (`backend/main.py`) and the user store (`backend/database.py`) -/

/-- The `/api/movies/recommend/{title}` route's outcome: HTTP 404 when the
recommender returned no movies, HTTP 200 with the payload otherwise
(`main.py` lines 96-106). -/
inductive RecommendOutcome (R : Type) where
  | notFound : RecommendOutcome R
  | ok : List (DisplayMovie R) → RecommendOutcome R
deriving DecidableEq

/-- `recommend_movies(title, n)` (`main.py` lines 96-106). -/
def recommend_movies (m : Model R) (title : String) (n : ℕ) : RecommendOutcome R :=
  let movies := get_recommendations m title n
  if movies.isEmpty then RecommendOutcome.notFound else RecommendOutcome.ok movies

/-- The `users` table: one row per user, `(username, email, hashed_password)`,
in insertion order. -/
structure DB where
  users : List (String × String × String)
deriving DecidableEq

/-- `get_user_by_username` (`database.py` lines 35-42). -/
def get_user_by_username (db : DB) (username : String) :
    Option (String × String × String) :=
  db.users.find? (fun r => r.1 == username)

/-- `get_user_by_email` (`database.py` lines 45-52). -/
def get_user_by_email (db : DB) (email : String) :
    Option (String × String × String) :=
  db.users.find? (fun r => r.2.1 == email)

/-- `create_user` (`database.py` lines 55-69): the INSERT succeeds and
appends the row unless a UNIQUE constraint (username or email) fires, in
which case `sqlite3.IntegrityError` is caught and `False` returned with the
table unchanged. -/
def create_user (db : DB) (username email hashed : String) : Bool × DB :=
  if db.users.any (fun r => r.1 == username || r.2.1 == email) then
    (false, db)
  else
    (true, ⟨db.users ++ [(username, email, hashed)]⟩)

/-- The distinct outcomes of the `/api/register` route. -/
inductive RegisterOutcome where
  | badRequest : String → RegisterOutcome
  | conflict : String → RegisterOutcome
  | serverError : RegisterOutcome
  | created : RegisterOutcome
deriving DecidableEq

/-- The HTTP status code each register outcome is surfaced with. -/
def RegisterOutcome.status : RegisterOutcome → ℕ
  | RegisterOutcome.badRequest _ => 400
  | RegisterOutcome.conflict _ => 409
  | RegisterOutcome.serverError => 500
  | RegisterOutcome.created => 200

/-- `register(user)` (`main.py` lines 42-59).  `hashf` abstracts
`hash_password` (bcrypt, external).  Besides the outcome and the resulting
user store, the third component counts the user-store operations (reads and
writes) the handler performed, to express "rejected before any persistence
attempt". -/
def register (hashf : String → String) (db : DB)
    (username email password : String) : RegisterOutcome × DB × ℕ :=
  if username.length < 3 then (RegisterOutcome.badRequest "username", db, 0)
  else if password.length < 6 then (RegisterOutcome.badRequest "password", db, 0)
  else if (get_user_by_username db username).isSome then
    (RegisterOutcome.conflict "username", db, 1)
  else if (get_user_by_email db email).isSome then
    (RegisterOutcome.conflict "email", db, 2)
  else
    match create_user db username email (hashf password) with
    | (true, db2) => (RegisterOutcome.created, db2, 3)
    | (false, db2) => (RegisterOutcome.serverError, db2, 3)

/-! ## Concrete instances used by witnesses and counterexamples -/

/-- A provider oracle whose every request fails at the network level. -/
def oC2 : TmdbOracle := fun _ => TmdbOutcome.netError

/-- Witness catalogue for C1: row 0 is strictly most similar to itself. -/
def wC1 : Model ℤ :=
  ⟨[⟨"aa", "", "", "", 0, 0⟩, ⟨"bb", "", "", "", 0, 0⟩, ⟨"cc", "", "", "", 0, 0⟩],
    [[2], [1], [0]]⟩

/-- Counterexample catalogue for C1: row 1 has the zero tag vector, so every
similarity ties at 0 and the stable sort leaves row 0 first. -/
def xC1 : Model ℤ :=
  ⟨[⟨"aa", "", "", "", 0, 0⟩, ⟨"bb", "", "", "", 0, 0⟩], [[0], [0]]⟩

/-- Counterexample catalogue for C3: two rows with tied popularity. -/
def xC3 : Model ℤ :=
  ⟨[⟨"aa", "", "", "", 0, 0⟩, ⟨"bb", "", "", "", 0, 0⟩], [[1], [1]]⟩

/-- Witness catalogue for C3, with distinct popularities. -/
def wC3 : Model ℤ :=
  ⟨[⟨"aa", "", "", "", 0, 1⟩, ⟨"bb", "", "", "", 0, 5⟩, ⟨"cc", "", "", "", 0, 3⟩],
    [[1], [1], [1]]⟩

/-- Witness catalogue for C4: no exact match for "avatar", one substring hit. -/
def wC4 : Model ℤ := ⟨[⟨"xavatarx", "", "", "", 0, 0⟩], [[1]]⟩

/-- Counterexample catalogue for C4 and C6: the regex wildcard makes "a."
match the title "ab" that does not literally contain it. -/
def xC4 : Model ℤ := ⟨[⟨"ab", "", "", "", 0, 0⟩], [[1]]⟩

/-- Witness catalogue for C5: trimmed titles. -/
def wC5 : Model ℤ :=
  ⟨[⟨"Avatar", "", "", "", 0, 0⟩, ⟨"Bob", "", "", "", 0, 0⟩], [[1], [1]]⟩

/-- Counterexample catalogue for C5: row 1's title carries surrounding
whitespace, and an earlier title contains its stripped form. -/
def xC5 : Model ℤ :=
  ⟨[⟨"xax", "", "", "", 0, 0⟩, ⟨" a ", "", "", "", 0, 0⟩], [[1], [1]]⟩

/-- Witness catalogue for C6. -/
def wC6 : Model ℤ :=
  ⟨[⟨"Avatar", "", "", "", 0, 0⟩, ⟨"Brave", "", "", "", 0, 0⟩], [[1], [1]]⟩

/-- Counterexample catalogue for C6 (same shape as `xC4`). -/
def xC6 : Model ℤ := ⟨[⟨"ab", "", "", "", 0, 0⟩], [[1]]⟩

/-- Witness catalogue for C7: a duplicated title. -/
def wC7 : Model ℤ :=
  ⟨[⟨"A", "", "", "", 0, 0⟩, ⟨"B", "", "", "", 0, 0⟩, ⟨"A", "", "", "", 0, 0⟩],
    [[1], [1], [1]]⟩

/-- Counterexample catalogue for C7: a row whose title is the empty string
(as `load_model` produces for a NaN title). -/
def xC7 : Model ℤ :=
  ⟨[⟨"A", "", "", "", 0, 0⟩, ⟨"", "", "", "", 0, 0⟩], [[1], [1]]⟩

/-- Witness catalogue for C8: no title matches "zz". -/
def wC8 : Model ℤ := ⟨[⟨"aa", "", "", "", 0, 0⟩], [[1]]⟩

/-- Witness user store for C9: one registered user. -/
def dbC9 : DB := ⟨[("bob", "bob@example.com", "h1")]⟩

/-- Witness catalogue for C10: two rows. -/
def wC10 : Model ℤ :=
  ⟨[⟨"aa", "", "", "", 0, 0⟩, ⟨"bb", "", "", "", 0, 0⟩], [[1], [2]]⟩

/-- Counterexample catalogue for C10: a single row. -/
def xC10 : Model ℤ := ⟨[⟨"aa", "", "", "", 0, 0⟩], [[1]]⟩

/-! ## Helper lemmas: enumeration -/

theorem enumFrom_length {α : Type} (i : ℕ) (l : List α) :
    (enumFrom i l).length = l.length := by
  induction l generalizing i with
  | nil => rfl
  | cons a as ih => simp [enumFrom, ih]

theorem mem_enumFrom {α : Type} {p : ℕ × α} :
    ∀ {i : ℕ} {l : List α}, p ∈ enumFrom i l →
      i ≤ p.1 ∧ p.1 - i < l.length ∧ l[p.1 - i]? = some p.2 := by
  intro i l
  induction l generalizing i with
  | nil => intro h; cases h
  | cons a as ih =>
    intro h
    rcases List.mem_cons.mp h with h1 | h2
    · subst h1
      refine ⟨Nat.le_refl i, ?_, ?_⟩ <;> simp
    · obtain ⟨h3, h4, h5⟩ := ih h2
      have hle : i ≤ p.1 := Nat.le_trans (Nat.le_succ i) h3
      have harith : p.1 - i = (p.1 - (i + 1)) + 1 := by omega
      refine ⟨hle, by simp [harith]; omega, ?_⟩
      simp [harith, h5]

theorem enumFrom_mem_of_getElem? {α : Type} :
    ∀ {k i : ℕ} {l : List α} {a : α}, l[k]? = some a → (i + k, a) ∈ enumFrom i l := by
  intro k i l
  induction l generalizing i k with
  | nil => intro a h; simp at h
  | cons b bs ih =>
    intro a h
    match k with
    | 0 =>
      simp at h
      subst h
      simp [enumFrom]
    | k + 1 =>
      simp at h
      have := ih (i := i + 1) h
      have harith : i + (k + 1) = (i + 1) + k := by omega
      rw [harith]
      exact List.mem_cons_of_mem _ this

theorem enumFrom_pairwise_fst {α : Type} (i : ℕ) (l : List α) :
    (enumFrom i l).Pairwise (fun p q => p.1 < q.1) := by
  induction l generalizing i with
  | nil => exact List.Pairwise.nil
  | cons a as ih =>
    refine List.Pairwise.cons ?_ (ih (i + 1))
    intro q hq
    have := (mem_enumFrom hq).1
    omega

theorem enumFrom_fst_nodup {α : Type} (i : ℕ) (l : List α) :
    ((enumFrom i l).map Prod.fst).Nodup := by
  have h := enumFrom_pairwise_fst i l
  have : ((enumFrom i l).map Prod.fst).Pairwise (fun a b : ℕ => a < b) :=
    (List.pairwise_map).mpr h
  exact this.imp Nat.ne_of_lt

/-! ## Helper lemmas: the stable descending sort -/

theorem insertDesc_perm (p : ℕ × R) (l : List (ℕ × R)) :
    (insertDesc p l).Perm (p :: l) := by
  induction l with
  | nil => exact List.Perm.refl _
  | cons q qs ih =>
    by_cases h : q.2 > p.2
    · rw [insertDesc, if_pos h]
      exact (ih.cons q).trans (List.Perm.swap p q qs)
    · rw [insertDesc, if_neg h]

theorem sortDesc_perm (l : List (ℕ × R)) : (sortDesc l).Perm l := by
  induction l with
  | nil => exact List.Perm.refl _
  | cons p ps ih => exact (insertDesc_perm p (sortDesc ps)).trans (ih.cons p)

theorem mem_sortDesc {l : List (ℕ × R)} {y : ℕ × R} :
    y ∈ sortDesc l ↔ y ∈ l := (sortDesc_perm l).mem_iff

theorem sortDesc_length (l : List (ℕ × R)) :
    (sortDesc l).length = l.length := (sortDesc_perm l).length_eq

theorem insertDesc_sorted {p : ℕ × R} {l : List (ℕ × R)}
    (h : l.Pairwise (fun a b => b.2 ≤ a.2)) :
    (insertDesc p l).Pairwise (fun a b => b.2 ≤ a.2) := by
  induction l with
  | nil => simp [insertDesc]
  | cons q qs ih =>
    by_cases hgt : q.2 > p.2
    · rw [insertDesc, if_pos hgt]
      refine List.Pairwise.cons ?_ (ih (List.Pairwise.sublist (List.sublist_cons_self q qs) h))
      intro y hy
      rcases List.mem_cons.mp ((insertDesc_perm p qs).mem_iff.mp hy) with h1 | h2
      · rw [h1]; exact le_of_lt hgt
      · exact (List.pairwise_cons.mp h).1 y h2
    · rw [insertDesc, if_neg hgt]
      refine List.Pairwise.cons ?_ h
      intro y hy
      rcases List.mem_cons.mp hy with h1 | h2
      · rw [h1]; exact le_of_not_lt hgt
      · exact le_trans ((List.pairwise_cons.mp h).1 y h2) (le_of_not_lt hgt)

theorem sortDesc_sorted (l : List (ℕ × R)) :
    (sortDesc l).Pairwise (fun a b => b.2 ≤ a.2) := by
  induction l with
  | nil => exact List.Pairwise.nil
  | cons p ps ih => exact insertDesc_sorted ih

theorem insertDesc_eq_cons {p : ℕ × R} {l : List (ℕ × R)}
    (h : ∀ y ∈ l, y.2 ≤ p.2) : insertDesc p l = p :: l := by
  cases l with
  | nil => rfl
  | cons q qs =>
    rw [insertDesc, if_neg]
    exact not_lt_of_le (h q (List.mem_cons_self q qs))

theorem sortDesc_head_max {x : ℕ × R} :
    ∀ {l : List (ℕ × R)}, x ∈ l → (∀ y ∈ l, y ≠ x → y.2 < x.2) →
      ∃ t, sortDesc l = x :: t := by
  intro l
  induction l with
  | nil => intro h; cases h
  | cons p ps ih =>
    intro hmem hmax
    by_cases hpx : p = x
    · subst hpx
      refine ⟨sortDesc ps, ?_⟩
      rw [sortDesc]
      refine insertDesc_eq_cons ?_
      intro y hy
      by_cases he : y = p
      · rw [he]
      · exact le_of_lt (hmax y (List.mem_cons_of_mem p (mem_sortDesc.mp hy)) he)
    · have h2 : x ∈ ps := by
        rcases List.mem_cons.mp hmem with h1 | h1
        · exact absurd h1.symm hpx
        · exact h1
      obtain ⟨t, ht⟩ := ih h2 (fun y hy hne2 => hmax y (List.mem_cons_of_mem p hy) hne2)
      refine ⟨insertDesc p t, ?_⟩
      rw [sortDesc, ht, insertDesc, if_pos]
      exact hmax p (List.mem_cons_self p ps) hpx

theorem insertDesc_stable {p : ℕ × R} {l : List (ℕ × R)}
    (hl : l.Pairwise (fun a b => a.2 = b.2 → a.1 < b.1))
    (hp : ∀ q ∈ l, q.2 = p.2 → p.1 < q.1) :
    (insertDesc p l).Pairwise (fun a b => a.2 = b.2 → a.1 < b.1) := by
  induction l with
  | nil => simp [insertDesc]
  | cons q qs ih =>
    by_cases hgt : q.2 > p.2
    · rw [insertDesc, if_pos hgt]
      refine List.Pairwise.cons ?_
        (ih (List.Pairwise.sublist (List.sublist_cons_self q qs) hl)
          (fun y hy hvy => hp y (List.mem_cons_of_mem q hy) hvy))
      intro y hy heq
      rcases List.mem_cons.mp ((insertDesc_perm p qs).mem_iff.mp hy) with h1 | h2
      · exact absurd (h1 ▸ heq) (ne_of_gt hgt)
      · exact (List.pairwise_cons.mp hl).1 y h2 heq
    · rw [insertDesc, if_neg hgt]
      refine List.Pairwise.cons ?_ hl
      intro y hy heq
      exact hp y hy heq.symm

theorem sortDesc_stable {l : List (ℕ × R)}
    (h : l.Pairwise (fun a b => a.1 < b.1)) :
    (sortDesc l).Pairwise (fun a b => a.2 = b.2 → a.1 < b.1) := by
  induction l with
  | nil => exact List.Pairwise.nil
  | cons p ps ih =>
    rw [sortDesc]
    refine insertDesc_stable (ih (List.Pairwise.sublist (List.sublist_cons_self p ps) h)) ?_
    intro q hq _
    exact (List.pairwise_cons.mp h).1 q (mem_sortDesc.mp hq)

/-! ## Helper lemmas: title resolution -/

omit [LinearOrderedCommRing R] in
theorem filter_indices_head (f : String → Bool) :
    ∀ (i : ℕ) (l : List (Movie R)),
      ((((enumFrom i l).map (fun p => (p.2.title, p.1))).filter
        (fun p => f p.1)).head?).map Prod.snd
        = (l.findIdx? (fun r => f r.title)).map (fun k => i + k) := by
  intro i l
  induction l generalizing i with
  | nil => rfl
  | cons a as ih =>
    show ((((i, a) :: enumFrom (i + 1) as).map (fun p => (p.2.title, p.1))).filter
        (fun p => f p.1)).head?.map Prod.snd = _
    rw [List.map_cons]
    by_cases h : f a.title
    · rw [List.filter_cons_of_pos (by simpa using h)]
      rw [List.findIdx?_cons, if_pos h]
      simp
    · rw [List.filter_cons_of_neg (by simpa using h)]
      rw [List.findIdx?_cons, if_neg h, List.findIdx?_start_succ]
      rw [ih (i + 1), Option.map_map]
      congr 1
      funext k
      simp only [Function.comp_apply]
      omega

omit [LinearOrderedCommRing R] in
theorem filter_indices_snd (f : String → Bool) (m : Model R) :
    (((indicesOf m).filter (fun p => f p.1)).head?).map Prod.snd
      = m.rows.findIdx? (fun r => f r.title) := by
  rw [indicesOf, filter_indices_head f 0 m.rows]
  simp

/-- The resolution step as a pair of first-match searches over the catalogue
rows: exact lowercased-title equality first, the `str.contains` fallback
only when no exact match exists. -/
theorem resolve_title_eq (m : Model R) (q : String) :
    resolve_title m q =
      (m.rows.findIdx? (fun r => titleLower r == normQuery q)).or
        (m.rows.findIdx? (fun r => pandasContains (normQuery q) (titleLower r))) := by
  have hexact := filter_indices_snd (R := R)
    (fun t => pyLowerL t.data == normQuery q) m
  have hpart := filter_indices_snd (R := R)
    (fun t => pandasContains (normQuery q) (pyLowerL t.data)) m
  simp only [titleLower]
  unfold resolve_title
  split
  · rename_i p t hE
    rw [hE] at hexact
    simp only [List.head?_cons, Option.map_some'] at hexact
    rw [← hexact, Option.or_some]
  · rename_i hE
    rw [hE] at hexact
    simp only [List.head?_nil, Option.map_none'] at hexact
    rw [← hexact, Option.none_or]
    split
    · rename_i p2 t2 hP
      rw [hP] at hpart
      simp only [List.head?_cons, Option.map_some'] at hpart
      exact hpart
    · rename_i hP
      rw [hP] at hpart
      simp only [List.head?_nil, Option.map_none'] at hpart
      exact hpart

theorem resolve_title_lt {m : Model R} {q : String} {idx : ℕ}
    (h : resolve_title m q = some idx) : idx < m.rows.length := by
  rw [resolve_title_eq] at h
  rcases hx : m.rows.findIdx? (fun r => titleLower r == normQuery q) with _ | j
  · rw [hx, Option.none_or] at h
    exact (List.findIdx?_eq_some_iff_findIdx_eq.mp h).1
  · rw [hx, Option.or_some] at h
    cases h
    exact (List.findIdx?_eq_some_iff_findIdx_eq.mp hx).1

/-! ## Helper lemmas: the similarity row -/

theorem cosineRow_length (m : Model R) (idx : ℕ) :
    (cosineRow m idx).length = m.matrix.length := by
  rw [cosineRow, List.length_map]

theorem cosineRow_getElem? {m : Model R} {idx j : ℕ} (hj : j < m.matrix.length) :
    (cosineRow m idx)[j]? = some (simAt m idx j) := by
  rw [cosineRow, List.getElem?_map, List.getElem?_eq_getElem hj]
  simp only [Option.map_some']
  congr 1
  rw [simAt]
  congr 1
  rw [List.getD_eq_getElem?_getD, List.getElem?_eq_getElem hj]
  rfl

theorem mem_cosine_enum {m : Model R} {idx : ℕ} {y : ℕ × R}
    (hy : y ∈ enumFrom 0 (cosineRow m idx)) :
    y.1 < m.matrix.length ∧ y.2 = simAt m idx y.1 := by
  obtain ⟨h1, h2, h3⟩ := mem_enumFrom hy
  rw [Nat.sub_zero] at h2 h3
  rw [cosineRow_length] at h2
  refine ⟨h2, ?_⟩
  rw [cosineRow_getElem? h2] at h3
  exact (Option.some.inj h3).symm

theorem cosine_enum_mem {m : Model R} {idx j : ℕ} (hj : j < m.matrix.length) :
    (j, simAt m idx j) ∈ enumFrom 0 (cosineRow m idx) := by
  have h := enumFrom_mem_of_getElem? (i := 0) (@cosineRow_getElem? R _ m idx j hj)
  simpa using h

/-- C1, amended.  Provided the resolved row is strictly more similar to
itself than every other row is to it (so that it occupies the first slot of
the stable descending sort — the slot `sim_scores[1:n+1]` skips), the
recommendation list never contains the resolved row, has at most `n`
entries, and every row it keeps has similarity at least that of every row
it excludes (the resolved row itself aside). -/
theorem C1_amended (m : Model R) (title : String) (n idx : ℕ)
    (hm : m.matrix.length = m.rows.length)
    (hres : resolve_title m title = some idx)
    (hstrict : ∀ j < m.rows.length, j ≠ idx → simAt m idx j < simAt m idx idx) :
    idx ∉ recIndices m title n ∧
    (recIndices m title n).length ≤ n ∧
    (get_recommendations m title n).length ≤ n ∧
    (∀ i ∈ recIndices m title n, ∀ j < m.rows.length,
      j ∉ recIndices m title n → j ≠ idx → simAt m idx j ≤ simAt m idx i) := by
  have hidx : idx < m.rows.length := resolve_title_lt hres
  have hidxm : idx < m.matrix.length := by rw [hm]; exact hidx
  have hxL : ((idx, simAt m idx idx) : ℕ × R) ∈ enumFrom 0 (cosineRow m idx) :=
    cosine_enum_mem hidxm
  have hmax : ∀ y ∈ enumFrom 0 (cosineRow m idx),
      y ≠ ((idx, simAt m idx idx) : ℕ × R) → y.2 < simAt m idx idx := by
    intro y hy hne
    obtain ⟨hy1, hy2⟩ := mem_cosine_enum hy
    have hne1 : y.1 ≠ idx := by
      intro he
      exact hne (Prod.ext_iff.mpr ⟨he, by rw [hy2, he]⟩)
    have := hstrict y.1 (by rw [← hm]; exact hy1) hne1
    rw [hy2]
    exact this
  obtain ⟨t, ht⟩ := sortDesc_head_max hxL hmax
  have hrec : recIndices m title n = (t.take n).map Prod.fst := by
    simp only [recIndices, hres, ht, List.drop_succ_cons, List.drop_zero]
  have hnodup : (((idx, simAt m idx idx) :: t).map Prod.fst).Nodup := by
    rw [← ht]
    exact ((sortDesc_perm _).map Prod.fst).nodup_iff.mpr
      (enumFrom_fst_nodup 0 (cosineRow m idx))
  have hnotin : idx ∉ t.map Prod.fst := by
    rw [List.map_cons] at hnodup
    exact (List.nodup_cons.mp hnodup).1
  have hsorted := sortDesc_sorted (enumFrom 0 (cosineRow m idx))
  rw [ht] at hsorted
  have htail : t.Pairwise (fun a b : ℕ × R => b.2 ≤ a.2) :=
    (List.pairwise_cons.mp hsorted).2
  refine ⟨?_, ?_, ?_, ?_⟩
  · rw [hrec]
    intro hmem
    exact hnotin (((List.take_sublist n t).map Prod.fst).subset hmem)
  · rw [hrec, List.length_map]
    exact List.length_take_le n t
  · refine le_trans (List.length_filterMap_le _ _) ?_
    rw [hrec, List.length_map]
    exact List.length_take_le n t
  · intro i hi j hj hjnot hjne
    rw [hrec] at hi
    obtain ⟨pr, hprmem, hpr1⟩ := List.mem_map.mp hi
    have hprL : pr ∈ enumFrom 0 (cosineRow m idx) := by
      refine mem_sortDesc.mp ?_
      rw [ht]
      exact List.mem_cons_of_mem _ ((List.take_sublist n t).subset hprmem)
    have hpr2 : pr.2 = simAt m idx pr.1 := (mem_cosine_enum hprL).2
    have hjL : ((j, simAt m idx j) : ℕ × R) ∈ enumFrom 0 (cosineRow m idx) :=
      cosine_enum_mem (by rw [hm]; exact hj)
    have hjS : ((j, simAt m idx j) : ℕ × R) ∈
        ((idx, simAt m idx idx) : ℕ × R) :: t := by
      rw [← ht]
      exact mem_sortDesc.mpr hjL
    have hjt : ((j, simAt m idx j) : ℕ × R) ∈ t := by
      rcases List.mem_cons.mp hjS with h1 | h1
      · exact absurd (congrArg Prod.fst h1) hjne
      · exact h1
    have hjdrop : ((j, simAt m idx j) : ℕ × R) ∈ t.drop n := by
      have hsplit : ((j, simAt m idx j) : ℕ × R) ∈ t.take n ++ t.drop n := by
        rw [List.take_append_drop]
        exact hjt
      rcases List.mem_append.mp hsplit with h1 | h1
      · exfalso
        apply hjnot
        rw [hrec]
        exact List.mem_map.mpr ⟨_, h1, rfl⟩
      · exact h1
    have htail2 : (t.take n ++ t.drop n).Pairwise (fun a b : ℕ × R => b.2 ≤ a.2) := by
      rw [List.take_append_drop]
      exact htail
    have hcross := (List.pairwise_append.mp htail2).2.2
    have := hcross pr hprmem ((j, simAt m idx j) : ℕ × R) hjdrop
    rw [hpr2, hpr1] at this
    exact this

/-! ## Helper lemmas: the regex fragment against literal containment -/

theorem parsePat_no_dot {pat : List Char} (h : ('.' : Char) ∉ pat) :
    parsePat pat = pat.map RAtom.lit := by
  rw [parsePat]
  apply List.map_congr_left
  intro c hc
  rw [if_neg]
  intro he
  exact h (he ▸ hc)

theorem matchSeq_lit (pat : List Char) :
    ∀ s : List Char, matchSeq (pat.map RAtom.lit) s = isPrefixL pat s := by
  induction pat with
  | nil => intro s; cases s <;> rfl
  | cons c cs ih =>
    intro s
    cases s with
    | nil => rfl
    | cons b bs =>
      show (c = b && matchSeq (cs.map RAtom.lit) bs) = (c = b && isPrefixL cs bs)
      rw [ih bs]

theorem searchAtoms_lit (pat : List Char) :
    ∀ s : List Char, searchAtoms (pat.map RAtom.lit) s = containsSub pat s := by
  intro s
  induction s with
  | nil => rw [searchAtoms, containsSub, matchSeq_lit]
  | cons c rest ih => rw [searchAtoms, containsSub, matchSeq_lit, ih]

/-- On patterns free of every metacharacter (the wildcard `.` included) the
embedded `str.contains` agrees with the literal-substring test. -/
theorem pandasContains_eq_containsSub {pat : List Char} (s : List Char)
    (hql : queryOK pat = true) (hnd : ('.' : Char) ∉ pat) :
    pandasContains pat s = containsSub pat s := by
  rw [pandasContains, if_pos hql, parsePat_no_dot hnd, searchAtoms_lit]

theorem isPrefixL_iff (pat : List Char) :
    ∀ s : List Char, isPrefixL pat s = true ↔ pat <+: s := by
  induction pat with
  | nil => intro s; simp [isPrefixL]
  | cons a as ih =>
    intro s
    cases s with
    | nil => simp [isPrefixL]
    | cons b bs =>
      rw [isPrefixL, List.cons_prefix_cons]
      simp [ih bs]

/-- The literal-substring test decides list-infix containment. -/
theorem containsSub_iff (pat : List Char) :
    ∀ s : List Char, containsSub pat s = true ↔ pat <:+: s := by
  intro s
  induction s with
  | nil =>
    rw [containsSub, isPrefixL_iff]
    constructor
    · intro h
      exact h.isInfix
    · intro h
      rw [List.infix_nil] at h
      rw [h]
  | cons c rest ih =>
    rw [containsSub, List.infix_cons_iff, Bool.or_eq_true, isPrefixL_iff, ih]

/-- C6, amended: for queries free of regex metacharacters, `search_movies`
returns exactly the display records of the rows whose lowercased title
contains the normalised query as a literal substring, in catalogue order,
truncated to `limit`; a query matching no title yields the empty sequence. -/
theorem C6_amended (m : Model R) (q : String) (limit : ℕ)
    (hql : queryOK (normQuery q) = true) (hnd : ('.' : Char) ∉ normQuery q) :
    search_movies m q limit
      = ((m.rows.filter (fun r => containsSub (normQuery q) (titleLower r))).take
          limit).map build_movie ∧
    ((∀ r ∈ m.rows, containsSub (normQuery q) (titleLower r) = false) →
      search_movies m q limit = []) := by
  have hfun : (fun r : Movie R => pandasContains (normQuery q) (titleLower r))
      = (fun r => containsSub (normQuery q) (titleLower r)) :=
    funext (fun r => pandasContains_eq_containsSub _ hql hnd)
  constructor
  · rw [search_movies, hfun]
  · intro hnone
    rw [search_movies, hfun, List.filter_eq_nil_iff.mpr]
    · simp
    · intro r hr
      rw [hnone r hr]
      exact Bool.false_ne_true

/-- C4, amended: when no catalogue row matches the query exactly and the
query is free of regex metacharacters, the fallback picks the first row (in
catalogue order) whose lowercased title contains the normalised query as a
literal substring, and resolution yields NOT_FOUND exactly when no row
contains it. -/
theorem C4_amended (m : Model R) (q : String)
    (hnoexact : ∀ r ∈ m.rows, (titleLower r == normQuery q) = false)
    (hql : queryOK (normQuery q) = true) (hnd : ('.' : Char) ∉ normQuery q) :
    resolve_title m q
      = m.rows.findIdx? (fun r => containsSub (normQuery q) (titleLower r)) ∧
    (resolve_title m q = none ↔
      ∀ r ∈ m.rows, containsSub (normQuery q) (titleLower r) = false) := by
  have h1 : m.rows.findIdx? (fun r => titleLower r == normQuery q) = none :=
    List.findIdx?_eq_none_iff.mpr hnoexact
  have hfun : (fun r : Movie R => pandasContains (normQuery q) (titleLower r))
      = (fun r => containsSub (normQuery q) (titleLower r)) :=
    funext (fun r => pandasContains_eq_containsSub _ hql hnd)
  have h2 : resolve_title m q
      = m.rows.findIdx? (fun r => containsSub (normQuery q) (titleLower r)) := by
    rw [resolve_title_eq, h1, Option.none_or, hfun]
  refine ⟨h2, ?_⟩
  rw [h2]
  exact List.findIdx?_eq_none_iff

/-- C5, amended: provided no catalogue title carries surrounding whitespace,
a query equal to a stored title up to casing and surrounding whitespace
resolves to the first catalogue row sharing that title's lowercased form (in
particular resolution succeeds, at a position no later than the row
itself). -/
theorem C5_amended (m : Model R) (q : String) (i : ℕ) (hi : i < m.rows.length)
    (htrim : ∀ r ∈ m.rows, pyStripL (titleLower r) = titleLower r)
    (hq : normQuery q = pyStripL (titleLower (m.rows.getD i default))) :
    resolve_title m q
      = m.rows.findIdx? (fun r => titleLower r == titleLower (m.rows.getD i default)) ∧
    (∃ j, resolve_title m q = some j ∧ j ≤ i ∧
      ∃ hj : j < m.rows.length,
        titleLower (m.rows.get ⟨j, hj⟩) = titleLower (m.rows.getD i default)) := by
  have hrowi : m.rows.getD i default = m.rows.get ⟨i, hi⟩ := by
    rw [List.getD_eq_getElem?_getD, List.getElem?_eq_getElem hi]
    rfl
  have hmem : m.rows.get ⟨i, hi⟩ ∈ m.rows := List.get_mem m.rows i hi
  have hq2 : normQuery q = titleLower (m.rows.getD i default) := by
    rw [hq, hrowi, htrim _ hmem]
  have hfun : (fun r : Movie R => titleLower r == normQuery q)
      = (fun r => titleLower r == titleLower (m.rows.getD i default)) :=
    funext (fun r => by rw [hq2])
  rcases hfind : m.rows.findIdx? (fun r => titleLower r == normQuery q) with _ | j
  · exfalso
    have hfalse := List.findIdx?_eq_none_iff.mp hfind _ hmem
    rw [hq2, hrowi] at hfalse
    simp at hfalse
  · have hres : resolve_title m q = some j := by
      rw [resolve_title_eq, hfind, Option.or_some]
    obtain ⟨hjlt, hpj, hmin⟩ := List.findIdx?_eq_some_iff_getElem.mp hfind
    have hle : j ≤ i := by
      by_contra hgt
      apply hmin i (Nat.lt_of_not_le hgt)
      show (titleLower (m.rows.get ⟨i, hi⟩) == normQuery q) = true
      rw [hq2, hrowi]
      exact beq_self_eq_true _
    refine ⟨?_, j, hres, hle, hjlt, ?_⟩
    · rw [hres, ← hfun, hfind]
    · have : (titleLower (m.rows.get ⟨j, hjlt⟩) == normQuery q) = true := hpj
      rw [hq2] at this
      exact eq_of_beq this

/-! ## Helper lemmas: deduplication -/

theorem pdUniqueAux_sublist : ∀ (seen l : List String), (pdUniqueAux seen l).Sublist l := by
  intro seen l
  induction l generalizing seen with
  | nil => exact List.Sublist.refl []
  | cons x xs ih =>
    rw [pdUniqueAux]
    by_cases h : x ∈ seen
    · rw [if_pos h]
      exact (ih seen).cons x
    · rw [if_neg h]
      exact (ih (x :: seen)).cons₂ x

theorem mem_pdUniqueAux_not_seen {a : String} :
    ∀ {seen l : List String}, a ∈ pdUniqueAux seen l → a ∉ seen := by
  intro seen l
  induction l generalizing seen with
  | nil => intro h; cases h
  | cons x xs ih =>
    intro h
    rw [pdUniqueAux] at h
    by_cases hx : x ∈ seen
    · rw [if_pos hx] at h
      exact ih h
    · rw [if_neg hx] at h
      rcases List.mem_cons.mp h with h1 | h1
      · rw [h1]; exact hx
      · intro hseen
        exact ih h1 (List.mem_cons_of_mem x hseen)

theorem pdUniqueAux_nodup : ∀ (seen l : List String), (pdUniqueAux seen l).Nodup := by
  intro seen l
  induction l generalizing seen with
  | nil => exact List.nodup_nil
  | cons x xs ih =>
    rw [pdUniqueAux]
    by_cases hx : x ∈ seen
    · rw [if_pos hx]
      exact ih seen
    · rw [if_neg hx]
      refine List.nodup_cons.mpr ⟨?_, ih (x :: seen)⟩
      intro hmem
      exact mem_pdUniqueAux_not_seen hmem (List.mem_cons_self x seen)

theorem mem_pdUniqueAux {a : String} :
    ∀ {seen l : List String}, a ∈ l → a ∉ seen → a ∈ pdUniqueAux seen l := by
  intro seen l
  induction l generalizing seen with
  | nil => intro h; cases h
  | cons x xs ih =>
    intro hmem hseen
    rw [pdUniqueAux]
    by_cases hx : x ∈ seen
    · rw [if_pos hx]
      rcases List.mem_cons.mp hmem with h1 | h1
      · exact absurd (h1 ▸ hx) hseen
      · exact ih h1 hseen
    · rw [if_neg hx]
      rcases List.mem_cons.mp hmem with h1 | h1
      · rw [h1]; exact List.mem_cons_self x _
      · by_cases hax : a = x
        · rw [hax]; exact List.mem_cons_self x _
        · exact List.mem_cons_of_mem x
            (ih h1 (by
              intro hc
              rcases List.mem_cons.mp hc with h2 | h2
              · exact hax h2
              · exact hseen h2))

/-- C7, amended: `get_all_titles` returns the catalogue titles deduplicated
(first occurrence kept) in encounter order — a sublist of the title column
with no repeats — capped at `limit`, and it is exhaustive whenever the
distinct titles fit under the cap.  Empty-string titles are not filtered
out (`dropna` removes only NaN, and `load_model` already replaced those
with `""`). -/
theorem C7_amended (m : Model R) (limit : ℕ) :
    (get_all_titles m limit).Nodup ∧
    (get_all_titles m limit).Sublist (m.rows.map (fun r => r.title)) ∧
    (get_all_titles m limit).length ≤ limit ∧
    ((pdUnique (m.rows.map (fun r => r.title))).length ≤ limit →
      ∀ t ∈ m.rows.map (fun r => r.title), t ∈ get_all_titles m limit) := by
  refine ⟨?_, ?_, ?_, ?_⟩
  · rw [get_all_titles, pdUnique]
    exact List.Nodup.sublist (List.take_sublist _ _)
      (pdUniqueAux_nodup [] (m.rows.map (fun r => r.title)))
  · rw [get_all_titles, pdUnique]
    exact List.Sublist.trans (List.take_sublist _ _)
      (pdUniqueAux_sublist [] (m.rows.map (fun r => r.title)))
  · rw [get_all_titles]
    exact List.length_take_le _ _
  · intro hfit t ht
    rw [get_all_titles]
    rw [pdUnique] at hfit ⊢
    rw [List.take_of_length_le hfit]
    exact mem_pdUniqueAux ht (List.not_mem_nil t)

/-! ## Helper lemmas: whitespace-only queries -/

theorem pyIsSpace_toLower {c : Char} (h : pyIsSpace c = true) : Char.toLower c = c := by
  rw [pyIsSpace] at h
  simp only [Bool.or_eq_true, decide_eq_true_eq] at h
  rcases h with ((((h | h) | h) | h) | h) | h <;> subst h <;> decide

theorem normQuery_of_whitespace {q : String} (h : ∀ c ∈ q.data, pyIsSpace c = true) :
    normQuery q = [] := by
  have h2 : ∀ c ∈ pyLowerL q.data, pyIsSpace c = true := by
    intro c hc
    obtain ⟨d, hd, hde⟩ := List.mem_map.mp hc
    rw [← hde, pyIsSpace_toLower (h d hd)]
    exact h d hd
  have h3 : List.dropWhile pyIsSpace (pyLowerL q.data) = [] :=
    List.dropWhile_eq_nil_iff.mpr h2
  rw [normQuery, pyStripL, h3]
  rfl

theorem pandasContains_nil (s : List Char) : pandasContains [] s = true := by
  have hq : queryOK ([] : List Char) = true := rfl
  rw [pandasContains, if_pos hq, parsePat, List.map_nil]
  induction s with
  | nil => rfl
  | cons c rest ih => simp [searchAtoms, matchSeq, ih]

/-! ## Helper lemmas: recommendation list sizes -/

theorem recIndices_mem_lt {m : Model R} {title : String} {n i : ℕ}
    (h : i ∈ recIndices m title n) : i < m.matrix.length := by
  rcases hres : resolve_title m title with _ | idx
  · simp only [recIndices, hres] at h
    cases h
  · simp only [recIndices, hres] at h
    obtain ⟨pr, hpr, hfst⟩ := List.mem_map.mp h
    have hprS : pr ∈ sortDesc (enumFrom 0 (cosineRow m idx)) :=
      (List.drop_sublist 1 _).subset ((List.take_sublist n _).subset hpr)
    have hprL := mem_sortDesc.mp hprS
    rw [← hfst]
    exact (mem_cosine_enum hprL).1

theorem recIndices_length {m : Model R} {title : String} {n idx : ℕ}
    (hres : resolve_title m title = some idx) :
    (recIndices m title n).length = min n (m.matrix.length - 1) := by
  simp only [recIndices, hres]
  rw [List.length_map, List.length_take, List.length_drop, sortDesc_length,
    enumFrom_length, cosineRow_length]

theorem filterMap_isSome_length {α β : Type} {f : α → Option β} :
    ∀ {l : List α}, (∀ a ∈ l, (f a).isSome = true) → (l.filterMap f).length = l.length := by
  intro l
  induction l with
  | nil => intro h; rfl
  | cons a as ih =>
    intro h
    rcases hfa : f a with _ | b
    · have hcontra := h a (List.mem_cons_self a as)
      rw [hfa] at hcontra
      cases hcontra
    · have ihh := ih (fun x hx => h x (List.mem_cons_of_mem a hx))
      rw [List.filterMap_cons_some hfa, List.length_cons, ihh, List.length_cons]

/-- C10, amended: an empty or whitespace-only query never resolves to
NOT_FOUND on a non-empty catalogue (its normalised form is the empty
string, which `str.contains` matches against every title); when the
catalogue holds at least two rows and `n ≥ 1` the recommendation list is
non-empty with at most `n` entries.  (On a single-row catalogue the list is
empty despite successful resolution — the `[1:n+1]` slice of a one-element
ranking is empty.) -/
theorem C10_amended (m : Model R) (q : String) (n : ℕ)
    (hws : ∀ c ∈ q.data, pyIsSpace c = true) :
    (m.rows ≠ [] → (resolve_title m q).isSome = true) ∧
    (m.matrix.length = m.rows.length → 2 ≤ m.rows.length → 1 ≤ n →
      get_recommendations m q n ≠ [] ∧ (get_recommendations m q n).length ≤ n) := by
  have hnq : normQuery q = [] := normQuery_of_whitespace hws
  have hsome : m.rows ≠ [] → (resolve_title m q).isSome = true := by
    intro hne
    rw [resolve_title_eq]
    rcases hx : m.rows.findIdx? (fun r => titleLower r == normQuery q) with _ | j
    · rw [Option.none_or]
      rcases hrows : m.rows with _ | ⟨r0, rs⟩
      · exact absurd hrows hne
      · simp only [hnq, List.findIdx?_cons, pandasContains_nil, if_true]
        rfl
    · rw [Option.or_some]
      rfl
  refine ⟨hsome, ?_⟩
  intro hm h2 hn
  have hne : m.rows ≠ [] := by
    intro hnil
    rw [hnil] at h2
    cases h2
  obtain ⟨idx, hres⟩ := Option.isSome_iff_exists.mp (hsome hne)
  have hlen : (get_recommendations m q n).length = (recIndices m q n).length := by
    rw [get_recommendations]
    apply filterMap_isSome_length
    intro i hi
    have hval : i < m.rows.length := by
      rw [← hm]
      exact recIndices_mem_lt hi
    rw [List.get?_eq_getElem?, List.getElem?_eq_getElem hval]
    rfl
  have hcount : (recIndices m q n).length = min n (m.matrix.length - 1) :=
    recIndices_length hres
  constructor
  · apply List.ne_nil_of_length_pos
    rw [hlen, hcount, hm]
    omega
  · rw [hlen, hcount]
    omega

/-! ## Helper lemmas: trending -/

theorem popPairs_length (m : Model R) : (popPairs m).length = m.rows.length := by
  rw [popPairs, enumFrom_length, List.length_map]

theorem popPairs_snd {m : Model R} {pr : ℕ × R} (h : pr ∈ popPairs m) :
    pr.2 = (m.rows.getD pr.1 default).popularity := by
  obtain ⟨_, hlt, hget⟩ := mem_enumFrom h
  rw [Nat.sub_zero] at hlt hget
  rw [List.length_map] at hlt
  rw [List.getElem?_map, List.getElem?_eq_getElem hlt, Option.map_some'] at hget
  have hval := Option.some.inj hget
  rw [List.getD_eq_getElem?_getD, List.getElem?_eq_getElem hlt]
  exact hval.symm

theorem filterMap_get_eq_map_getD {m : Model R} :
    ∀ {l : List ℕ}, (∀ i ∈ l, i < m.rows.length) →
      l.filterMap (fun i => m.rows.get? i) = l.map (fun i => m.rows.getD i default) := by
  intro l
  induction l with
  | nil => intro _; rfl
  | cons a as ih =>
    intro h
    have ha : a < m.rows.length := h a (List.mem_cons_self a as)
    have hsome : m.rows.get? a = some (m.rows.getD a default) := by
      rw [List.get?_eq_getElem?, List.getElem?_eq_getElem ha,
        List.getD_eq_getElem?_getD, List.getElem?_eq_getElem ha]
      rfl
    rw [List.filterMap_cons_some hsome, List.map_cons,
      ih (fun x hx => h x (List.mem_cons_of_mem a hx))]

theorem isPopSortOf_mem_lt {m : Model R} {ord : List ℕ} {i : ℕ}
    (hord : IsPopSortOf m ord) (h : i ∈ ord) : i < m.rows.length :=
  List.mem_range.mp (hord.1.mem_iff.mp h)

theorem get_trending_on_eq {m : Model R} {ord : List ℕ} (hord : IsPopSortOf m ord)
    (page per_page : ℕ) :
    get_trending_on m ord page per_page
      = (((rowsOf m ord).drop ((page - 1) * per_page)).take per_page).map
          build_movie := by
  rw [get_trending_on, rowsOf, ← List.map_drop, ← List.map_take]
  congr 1
  apply filterMap_get_eq_map_getD
  intro i hi
  exact isPopSortOf_mem_lt hord
    ((List.drop_sublist _ _).subset ((List.take_sublist _ _).subset hi))

theorem rowsOf_pairwise {m : Model R} {ord : List ℕ} (hord : IsPopSortOf m ord) :
    (rowsOf m ord).Pairwise (fun a b => b.popularity ≤ a.popularity) := by
  rw [rowsOf, List.pairwise_map]
  exact hord.2

theorem rowsOf_length {m : Model R} {ord : List ℕ} (hord : IsPopSortOf m ord) :
    (rowsOf m ord).length = m.rows.length := by
  rw [rowsOf, List.length_map, hord.1.length_eq, List.length_range]

theorem range_map_getD (m : Model R) :
    (List.range m.rows.length).map (fun i => m.rows.getD i default) = m.rows := by
  apply List.ext_getElem?
  intro k
  rw [List.getElem?_map]
  by_cases hk : k < m.rows.length
  · rw [List.getElem?_range hk, Option.map_some', List.getD_eq_getElem?_getD,
      List.getElem?_eq_getElem hk]
    rfl
  · have h1 : (List.range m.rows.length)[k]? = none :=
      List.getElem?_eq_none (by rw [List.length_range]; exact Nat.le_of_not_lt hk)
    have h2 : m.rows[k]? = none := List.getElem?_eq_none (Nat.le_of_not_lt hk)
    rw [h1, h2]
    rfl

theorem enumFrom_getElem? {α : Type} :
    ∀ (i k : ℕ) (l : List α), (enumFrom i l)[k]? = l[k]?.map (fun a => (i + k, a)) := by
  intro i k l
  induction l generalizing i k with
  | nil => simp [enumFrom]
  | cons a as ih =>
    match k with
    | 0 => simp [enumFrom]
    | k + 1 =>
      show ((i, a) :: enumFrom (i + 1) as)[k + 1]? = _
      rw [List.getElem?_cons_succ, List.getElem?_cons_succ, ih (i + 1) k]
      rcases as[k]? with _ | b
      · rfl
      · simp only [Option.map_some']
        congr 2
        omega

theorem rowsOf_perm {m : Model R} {ord : List ℕ} (hord : IsPopSortOf m ord) :
    (rowsOf m ord).Perm m.rows := by
  rw [rowsOf]
  have hp := hord.1.map (fun i => m.rows.getD i default)
  rw [range_map_getD] at hp
  exact hp

theorem stablePopOrder_isPopSortOf (m : Model R) :
    IsPopSortOf m (stablePopOrder m) := by
  constructor
  · have h1 := (sortDesc_perm (popPairs m)).map (fun p : ℕ × R => p.1)
    have h2 : (popPairs m).map (fun p : ℕ × R => p.1) = List.range m.rows.length := by
      apply List.ext_getElem?
      intro k
      rw [List.getElem?_map, popPairs, enumFrom_getElem?, List.getElem?_map]
      by_cases hk : k < m.rows.length
      · rw [List.getElem?_eq_getElem hk]
        simp only [Option.map_some', Nat.zero_add]
        rw [List.getElem?_range hk]
      · have hrows : m.rows[k]? = none := List.getElem?_eq_none (Nat.le_of_not_lt hk)
        have hrange : (List.range m.rows.length)[k]? = none :=
          List.getElem?_eq_none (by rw [List.length_range]; exact Nat.le_of_not_lt hk)
        rw [hrows, hrange]
        rfl
    rw [stablePopOrder]
    rw [h2] at h1
    exact h1
  · rw [stablePopOrder, List.pairwise_map]
    refine (sortDesc_sorted (popPairs m)).imp_of_mem ?_
    intro a b ha hb hle
    show (m.rows.getD b.1 default).popularity ≤ (m.rows.getD a.1 default).popularity
    rw [← popPairs_snd (mem_sortDesc.mp ha), ← popPairs_snd (mem_sortDesc.mp hb)]
    exact hle

/-- C3, amended: the sort order pandas returns is pinned down only up to
tied popularities (`IsPopSortOf`); for every admissible order,
`get_trending(page, per_page)` is the
`[(page-1)*per_page : (page-1)*per_page + per_page]` slice of the catalogue
read along it; the output is non-increasing in popularity; the sorted
sequence is a permutation of the catalogue and concatenating pages `1..k`
reconstructs it entirely, without overlap, as soon as `k*per_page` covers
the catalogue; an out-of-range page yields the empty sequence.  The stable
catalogue-order tie-break the original claim asserts is one admissible
order (last conjunct) but is not guaranteed by the code. -/
theorem C3_trending (m : Model R) (ord : List ℕ) (page per_page : ℕ)
    (hpage : 1 ≤ page) (hord : IsPopSortOf m ord) :
    get_trending_on m ord page per_page
      = (((rowsOf m ord).drop ((page - 1) * per_page)).take per_page).map
          build_movie ∧
    (get_trending_on m ord page per_page).Pairwise
      (fun a b => b.popularity ≤ a.popularity) ∧
    (rowsOf m ord).Perm m.rows ∧
    (rowsOf m ord).Pairwise (fun a b => b.popularity ≤ a.popularity) ∧
    (m.rows.length ≤ (page - 1) * per_page →
      get_trending_on m ord page per_page = []) ∧
    (∀ k, m.rows.length ≤ k * per_page →
      pagesConcat m ord per_page k = (rowsOf m ord).map build_movie) ∧
    IsPopSortOf m (stablePopOrder m) := by
  have haux : ∀ k, pagesConcat m ord per_page k
      = ((rowsOf m ord).take (k * per_page)).map build_movie := by
    intro k
    induction k with
    | zero => simp [pagesConcat]
    | succ k ih =>
      rw [pagesConcat, ih, get_trending_on_eq hord]
      have hidx : (k + 1 - 1) * per_page = k * per_page := by rw [Nat.add_sub_cancel]
      rw [hidx, Nat.succ_mul, List.take_add, List.map_append]
  refine ⟨get_trending_on_eq hord page per_page, ?_, rowsOf_perm hord,
    rowsOf_pairwise hord, ?_, ?_, stablePopOrder_isPopSortOf m⟩
  · rw [get_trending_on_eq hord]
    refine List.pairwise_map.mpr ?_
    have htp : (((rowsOf m ord).drop ((page - 1) * per_page)).take per_page).Pairwise
        (fun a b : Movie R => b.popularity ≤ a.popularity) :=
      List.Pairwise.sublist (List.take_sublist _ _)
        (List.Pairwise.sublist (List.drop_sublist _ _) (rowsOf_pairwise hord))
    exact htp.imp (fun h => h)
  · intro hout
    rw [get_trending_on_eq hord, List.drop_eq_nil_of_le]
    · simp
    · rw [rowsOf_length hord]
      exact hout
  · intro k hk
    rw [haux k, List.take_of_length_le]
    rw [rowsOf_length hord]
    exact hk

/-! ## Poster lookup, route and registration claims -/

theorem get_poster_url_uncached (key : String) (fetch : TmdbOracle)
    (c : PosterCache) (title : String) (hk : key ≠ "") :
    (get_poster_url key fetch c title).2.2 = 1 ∧
    (get_poster_url key fetch c title).2.1 = c := by
  rw [get_poster_url, if_neg hk]
  split
  · exact ⟨rfl, rfl⟩
  · split
    · split
      · exact ⟨rfl, rfl⟩
      · exact ⟨rfl, rfl⟩
    · exact ⟨rfl, rfl⟩

/-- C2 (the code as written): with an API key configured, every call to
`get_poster_url` — the function the poster route uses — performs exactly
one external network request and neither reads nor writes the poster
cache; two consecutive calls for the same title therefore perform two
network requests, not at most one.  (The cached variant exists as
`_fetch_poster_path` but nothing calls it.) -/
theorem C2_bug (key : String) (fetch : TmdbOracle) (c : PosterCache)
    (title : String) (hk : key ≠ "") :
    (get_poster_url key fetch c title).2.2 = 1 ∧
    (get_poster_url key fetch c title).2.1 = c ∧
    (get_poster_url key fetch (get_poster_url key fetch c title).2.1 title).2.2
      + (get_poster_url key fetch c title).2.2 = 2 := by
  obtain ⟨h1, h2⟩ := get_poster_url_uncached key fetch c title hk
  obtain ⟨h3, _⟩ := get_poster_url_uncached key fetch
    (get_poster_url key fetch c title).2.1 title hk
  exact ⟨h1, h2, by rw [h1, h3]⟩

theorem fetch_poster_path_hit {key : String} {fetch : TmdbOracle}
    {c : PosterCache} {title v : String} (h : cacheLookup c title = some v) :
    fetch_poster_path key fetch c title = (v, c, 0) := by
  rw [fetch_poster_path, h]

theorem fetch_poster_path_miss_nokey {fetch : TmdbOracle} {c : PosterCache}
    {title : String} (h : cacheLookup c title = none) :
    fetch_poster_path "" fetch c title = ("", c, 0) := by
  rw [fetch_poster_path, h, if_pos rfl]

theorem fetch_poster_path_miss {key : String} {fetch : TmdbOracle}
    {c : PosterCache} {title : String} (h : cacheLookup c title = none)
    (hk : key ≠ "") :
    (fetch_poster_path key fetch c title).2.2 = 1 ∧
    ∃ w, (fetch_poster_path key fetch c title).2.1 = (title, w) :: c := by
  rw [fetch_poster_path, h, if_neg hk]
  split
  · rename_i v hv
    cases hv
  · split
    · exact ⟨rfl, "", rfl⟩
    · split
      · split
        · rename_i p hp
          exact ⟨rfl, posterUrlOf p, rfl⟩
        · exact ⟨rfl, "", rfl⟩
      · exact ⟨rfl, "", rfl⟩

theorem cacheLookup_cons_self (c : PosterCache) (title v : String) :
    cacheLookup ((title, v) :: c) title = some v := by
  rw [cacheLookup]
  simp [List.find?]

/-- The dead cached helper really does satisfy the claimed cache property:
a second consecutive call for the same title performs no network request,
so the two calls together perform at most one. -/
theorem fetch_poster_path_cached (key : String) (fetch : TmdbOracle)
    (c : PosterCache) (title : String) :
    (fetch_poster_path key fetch c title).2.2
      + (fetch_poster_path key fetch
          (fetch_poster_path key fetch c title).2.1 title).2.2 ≤ 1 := by
  cases hl : cacheLookup c title with
  | some v =>
    rw [fetch_poster_path_hit hl]
    rw [fetch_poster_path_hit hl]
    simp
  | none =>
    by_cases hk : key = ""
    · subst hk
      rw [fetch_poster_path_miss_nokey hl]
      rw [fetch_poster_path_miss_nokey hl]
      simp
    · obtain ⟨h1, w, h2⟩ := fetch_poster_path_miss hl hk
      rw [h1, h2, fetch_poster_path_hit (cacheLookup_cons_self c title w)]
      simp

/-- C8: a title that resolves to NOT_FOUND makes `get_recommendations`
return the empty list (no failure), and the `/api/movies/recommend` route
turns exactly the empty recommendation list into the distinct 404 outcome. -/
theorem C8_confirmed :
    (∀ (m : Model R) (t : String) (n : ℕ), queryOK (normQuery t) = true →
      resolve_title m t = none → get_recommendations m t n = []) ∧
    (∀ (m : Model R) (t : String) (n : ℕ),
      recommend_movies m t n = RecommendOutcome.notFound ↔
        get_recommendations m t n = []) := by
  constructor
  · intro m t n hq h
    rw [get_recommendations]
    simp only [recIndices, h]
    rfl
  · intro m t n
    rw [recommend_movies]
    by_cases he : (get_recommendations m t n).isEmpty
    · rw [if_pos he]
      simp only [true_iff]
      exact List.isEmpty_iff.mp he
    · rw [if_neg he]
      constructor
      · intro hcon
        cases hcon
      · intro hnil
        exact absurd (List.isEmpty_iff.mpr hnil) he

/-- C9: a too-short username is rejected with the 400 validation outcome
before any user-store read or write; an otherwise valid registration whose
username or email collides is rejected with the distinct 409 conflict
outcome; 400, 409 and the 500 persistence-failure outcome are pairwise
distinct; and every rejected registration leaves the user store
unchanged. -/
theorem C9_confirmed :
    (∀ (hashf : String → String) (db : DB) (u e p : String), u.length < 3 →
      register hashf db u e p = (RegisterOutcome.badRequest "username", db, 0)) ∧
    (∀ (hashf : String → String) (db : DB) (u e p : String),
      3 ≤ u.length → 6 ≤ p.length →
      ((get_user_by_username db u).isSome ∨ (get_user_by_email db e).isSome) →
      (register hashf db u e p).1.status = 409 ∧ (register hashf db u e p).2.1 = db) ∧
    (∀ s1 s2 : String,
      (RegisterOutcome.badRequest s1).status ≠ (RegisterOutcome.conflict s2).status ∧
      (RegisterOutcome.conflict s1).status ≠ RegisterOutcome.serverError.status ∧
      (RegisterOutcome.badRequest s1).status ≠ RegisterOutcome.serverError.status) ∧
    (∀ (hashf : String → String) (db : DB) (u e p : String),
      (register hashf db u e p).1 ≠ RegisterOutcome.created →
      (register hashf db u e p).2.1 = db) := by
  refine ⟨?_, ?_, ?_, ?_⟩
  · intro hashf db u e p h
    rw [register, if_pos h]
  · intro hashf db u e p hu hp hdup
    rw [register, if_neg (by omega), if_neg (by omega)]
    by_cases hun : (get_user_by_username db u).isSome
    · rw [if_pos hun]
      exact ⟨rfl, rfl⟩
    · have hem : (get_user_by_email db e).isSome := by
        rcases hdup with h1 | h1
        · exact absurd h1 hun
        · exact h1
      rw [if_neg hun, if_pos hem]
      exact ⟨rfl, rfl⟩
  · intro s1 s2
    refine ⟨?_, ?_, ?_⟩ <;> (simp only [RegisterOutcome.status]; decide)
  · intro hashf db u e p
    rw [register]
    by_cases h1 : u.length < 3
    · rw [if_pos h1]
      intro _
      rfl
    · rw [if_neg h1]
      by_cases h2 : p.length < 6
      · rw [if_pos h2]
        intro _
        rfl
      · rw [if_neg h2]
        by_cases h3 : (get_user_by_username db u).isSome
        · rw [if_pos h3]
          intro _
          rfl
        · rw [if_neg h3]
          by_cases h4 : (get_user_by_email db e).isSome
          · rw [if_pos h4]
            intro _
            rfl
          · rw [if_neg h4]
            rw [create_user]
            by_cases h5 : db.users.any (fun r => r.1 == u || r.2.1 == e)
            · rw [if_pos h5]
              intro _
              rfl
            · rw [if_neg h5]
              intro hcon
              exact absurd rfl hcon


/-! ## Witnesses and counterexamples -/

/-- C1 witness: on `wC1` the hypotheses of the amended claim hold and the
conclusions evaluate as stated. -/
theorem C1_witness :
    (∀ j < wC1.rows.length, j ≠ 0 → simAt wC1 0 j < simAt wC1 0 0) ∧
    0 ∉ recIndices wC1 "aa" 2 ∧ (get_recommendations wC1 "aa" 2).length ≤ 2 :=
  ⟨by decide, (C1_amended wC1 "aa" 2 0 (by decide) (by decide) (by decide)).1,
    (C1_amended wC1 "aa" 2 0 (by decide) (by decide) (by decide)).2.2.1⟩

/-- C1 counterexample: on `xC1` the query "bb" resolves to row 1, yet row 1
appears in its own recommendation list — `sim_scores[1:n+1]` skipped row 0,
not the resolved row. -/
theorem C1_counterexample :
    resolve_title xC1 "bb" = some 1 ∧ 1 ∈ recIndices xC1 "bb" 12 ∧
    build_movie (xC1.rows.getD 1 default) ∈ get_recommendations xC1 "bb" 12 :=
  ⟨by decide, by decide, by decide⟩

/-- C2 witness: with a key configured and every fetch failing, each of two
consecutive calls performs one network request and the cache stays empty. -/
theorem C2_witness :
    ("k" : String) ≠ "" ∧
    (get_poster_url "k" oC2 [] "Avatar").2.2 = 1 ∧
    (get_poster_url "k" oC2 (get_poster_url "k" oC2 [] "Avatar").2.1 "Avatar").2.2
      + (get_poster_url "k" oC2 [] "Avatar").2.2 = 2 :=
  ⟨by decide, (C2_bug "k" oC2 [] "Avatar" (by decide)).1,
    (C2_bug "k" oC2 [] "Avatar" (by decide)).2.2⟩

/-- C3 witness: on `wC3` the stable order `[1, 2, 0]` satisfies the sort
contract and page 1 with two per page is the head of the sorted catalogue. -/
theorem C3_witness :
    (1 : ℕ) ≤ 1 ∧ IsPopSortOf wC3 [1, 2, 0] ∧
    get_trending_on wC3 [1, 2, 0] 1 2
      = (((rowsOf wC3 [1, 2, 0]).drop 0).take 2).map build_movie :=
  ⟨by decide, ⟨by decide, by decide⟩,
    (C3_trending wC3 [1, 2, 0] 1 2 (by decide) ⟨by decide, by decide⟩).1⟩

/-- C3 counterexample: on a catalogue with two rows of tied popularity both
`[0, 1]` and `[1, 0]` satisfy everything
`df.sort_values("popularity", ascending=False, kind='quicksort')`
guarantees, and they yield different trending sequences — so the code does
not guarantee the particular tie order (original catalogue order) the
claim asserts, and consequently does not guarantee the claimed output
sequence. -/
theorem C3_counterexample :
    IsPopSortOf xC3 [0, 1] ∧ IsPopSortOf xC3 [1, 0] ∧
    get_trending_on xC3 [0, 1] 1 2 ≠ get_trending_on xC3 [1, 0] 1 2 :=
  ⟨⟨by decide, by decide⟩, ⟨by decide, by decide⟩, by decide⟩

/-- C4 witness: "AvAtAr" has no exact match in `wC4` and resolves to the
first substring match. -/
theorem C4_witness :
    (∀ r ∈ wC4.rows, (titleLower r == normQuery "AvAtAr") = false) ∧
    resolve_title wC4 "AvAtAr"
      = wC4.rows.findIdx? (fun r => containsSub (normQuery "AvAtAr") (titleLower r)) :=
  ⟨by decide, (C4_amended wC4 "AvAtAr" (by decide) (by decide) (by decide)).1⟩

/-- C4 counterexample: "a." matches no title literally and no title
exactly, yet it resolves (the pandas fallback treats it as a regex whose
dot matches the letter b). -/
theorem C4_counterexample :
    (∀ r ∈ xC4.rows, (titleLower r == normQuery "a.") = false) ∧
    (∀ r ∈ xC4.rows, containsSub (normQuery "a.") (titleLower r) = false) ∧
    resolve_title xC4 "a." = some 0 :=
  ⟨by decide, by decide, by decide⟩

/-- C5 witness: the exact title "Avatar", padded and upper-cased, resolves
to its own row. -/
theorem C5_witness :
    normQuery " AVATAR " = pyStripL (titleLower (wC5.rows.getD 0 default)) ∧
    resolve_title wC5 " AVATAR "
      = wC5.rows.findIdx?
          (fun r => titleLower r == titleLower (wC5.rows.getD 0 default)) :=
  ⟨by decide, (C5_amended wC5 " AVATAR " 0 (by decide) (by decide) (by decide)).1⟩

/-- C5 counterexample: the title " a " is present at row 1, but resolving
it lands on row 0 ("xax"): the exact comparison strips the query while the
stored titles are never stripped, so the substring fallback fires first. -/
theorem C5_counterexample :
    resolve_title xC5 " a " = some 0 ∧
    titleLower (xC5.rows.getD 0 default) ≠ titleLower (xC5.rows.getD 1 default) :=
  ⟨by decide, by decide⟩

/-- C6 witness: the metacharacter-free query "AVA" returns exactly the
literal-substring matches. -/
theorem C6_witness :
    queryOK (normQuery "AVA") = true ∧
    search_movies wC6 "AVA" 20
      = ((wC6.rows.filter
          (fun r => containsSub (normQuery "AVA") (titleLower r))).take 20).map
            build_movie :=
  ⟨by decide, (C6_amended wC6 "AVA" 20 (by decide) (by decide)).1⟩

/-- C6 counterexample: searching "a." returns the row titled "ab" even
though no lowercased title contains "a." as a literal substring. -/
theorem C6_counterexample :
    (∀ r ∈ xC6.rows, containsSub (normQuery "a.") (titleLower r) = false) ∧
    search_movies xC6 "a." 20 = [build_movie (xC6.rows.getD 0 default)] :=
  ⟨by decide, by decide⟩

/-- C7 witness: on a catalogue with a duplicate title the distinct titles
all appear in the capped output. -/
theorem C7_witness :
    (pdUnique (wC7.rows.map (fun r => r.title))).length ≤ 50000 ∧
    (∀ t ∈ wC7.rows.map (fun r => r.title), t ∈ get_all_titles wC7 50000) :=
  ⟨by decide, (C7_amended wC7 50000).2.2.2 (by decide)⟩

/-- C7 counterexample: a row with an empty title puts the empty string into
`get_all_titles` — `dropna` does not remove it. -/
theorem C7_counterexample : "" ∈ get_all_titles xC7 50000 := by decide

/-- C8 witness: "zz" resolves nowhere in `wC8`, the result is the empty
list, and the route maps it to the 404 outcome. -/
theorem C8_witness :
    get_recommendations wC8 "zz" 12 = [] ∧
    (recommend_movies wC8 "zz" 12 = RecommendOutcome.notFound ↔
      get_recommendations wC8 "zz" 12 = []) :=
  ⟨(C8_confirmed (R := ℤ)).1 wC8 "zz" 12 (by decide) (by decide),
    (C8_confirmed (R := ℤ)).2 wC8 "zz" 12⟩

/-- C9 witness: a 2-character username is rejected with 400 and no store
access; re-registering "bob" is rejected with 409 and the store unchanged. -/
theorem C9_witness :
    ("ab" : String).length < 3 ∧
    register (fun s => s) ⟨[]⟩ "ab" "a@example.com" "secretpw"
      = (RegisterOutcome.badRequest "username", ⟨[]⟩, 0) ∧
    (register (fun s => s) dbC9 "bob" "c@example.com" "secretpw").1.status = 409 ∧
    (register (fun s => s) dbC9 "bob" "c@example.com" "secretpw").2.1 = dbC9 :=
  ⟨by decide,
    C9_confirmed.1 (fun s => s) ⟨[]⟩ "ab" "a@example.com" "secretpw" (by decide),
    (C9_confirmed.2.1 (fun s => s) dbC9 "bob" "c@example.com" "secretpw"
      (by decide) (by decide) (Or.inl (by decide))).1,
    (C9_confirmed.2.1 (fun s => s) dbC9 "bob" "c@example.com" "secretpw"
      (by decide) (by decide) (Or.inl (by decide))).2⟩

/-- C10 witness: a whitespace query on a two-row catalogue yields a
non-empty recommendation list of at most `n` entries. -/
theorem C10_witness :
    (∀ c ∈ ("  " : String).data, pyIsSpace c = true) ∧
    get_recommendations wC10 "  " 12 ≠ [] ∧
    (get_recommendations wC10 "  " 12).length ≤ 12 :=
  ⟨by decide,
    ((C10_amended wC10 "  " 12 (by decide)).2 (by decide) (by decide) (by decide)).1,
    ((C10_amended wC10 "  " 12 (by decide)).2 (by decide) (by decide) (by decide)).2⟩

/-- C10 counterexample: on a single-row catalogue the empty query resolves
(to row 0) yet `get_recommendations` returns the empty list, which the
route then reports as 404. -/
theorem C10_counterexample :
    resolve_title xC10 "" = some 0 ∧ get_recommendations xC10 "" 12 = [] :=
  ⟨by decide, by decide⟩
